import Mathlib

/-!
Shallow embedding of the ibox program (src/main.rs): a terminal box renderer
with interactive input fields.  Machine integers of the source (u16) are
modelled as Nat with explicit reduction modulo 65536 where the source
performs u16 arithmetic; wrapping (release-build) semantics are used for
subtraction.  Rust String values are modelled as Lean String; Rust
str::len (UTF-8 byte length) is modelled by byteLen below.
-/

/-- UTF-8 byte length of a string, the model of Rust str::len. -/
def byteLen (s : String) : Nat :=
  (s.data.map Char.utf8Size).sum

/-- Model of text.strip_suffix of the two-character marker: returns the
string with a trailing question-mark/greater-than pair removed, when present. -/
def stripMarker (s : String) : Option String :=
  match s.data.reverse with
  | '>' :: '?' :: rest => some (String.mk rest.reverse)
  | _ => none

/-- The display text of a line: the marker stripped when present, the line itself otherwise. -/
def displayText (s : String) : String :=
  match stripMarker s with
  | some r => r
  | none => s

/-- Byte length of the display text of a line. -/
def displayLen (s : String) : Nat :=
  byteLen (displayText s)

/-- Wrapping u16 addition. -/
def wadd (a b : Nat) : Nat := (a + b) % 65536

/-- Wrapping u16 subtraction (operands are u16 values, below 65536). -/
def wsub (a b : Nat) : Nat := (a + 65536 - b % 65536) % 65536

/-- The per-line width term of the interior-width computation, modelling
q.len() as u16 - q.ends_with(marker) as u16 * 2  (main.rs line 141). -/
def lineW16 (q : String) : Nat :=
  wsub (byteLen q % 65536) (if (stripMarker q).isSome then 2 else 0)

/-- The interior width computed in main (main.rs lines 139-144): the maximum
of the per-line widths over the query plus the configured padding, in u16
arithmetic; none when the query is empty (the source unwraps and panics). -/
def interiorWidth (query : List String) (padding : Nat) : Option Nat :=
  match query.map lineW16 with
  | [] => none
  | w :: ws => some ((ws.foldl Nat.max w + padding) % 65536)

/-- A 6-glyph border palette: the six indexed accesses border[0]..border[5]
of the source, which always operate on a vector of exactly 6 chars. -/
structure Border where
  c0 : Char
  c1 : Char
  c2 : Char
  c3 : Char
  c4 : Char
  c5 : Char
deriving DecidableEq, Repr

/-- View of a border char list as a 6-glyph palette; none when the length is not 6. -/
def border6 : List Char → Option Border
  | [a, b, c, d, e, f] => some ⟨a, b, c, d, e, f⟩
  | _ => none

/-- The default border palette of the source. -/
def defaultBorder : List Char := ['┌', '─', '┐', '│', '└', '┘']

/-- Number of fill characters pushed in a middle row, modelling the u16
expression length - text_len + 1 of mid (main.rs lines 221 and 232). -/
def fillCount (len qlen : Nat) : Nat :=
  wadd (wsub len qlen) 1

/-- Model of top (main.rs lines 199-212): the top row string, with the
optional title embedded after the corner and one horizontal glyph. -/
def top (title : Option String) (b : Border) (len : Nat) : String :=
  match title with
  | some t =>
    String.mk (b.c0 :: b.c1 :: t.data ++ List.replicate (wsub len (byteLen t % 65536)) b.c1 ++ [b.c2])
  | none => String.mk [b.c0, b.c1, b.c2]

/-- Model of mid (main.rs lines 214-238): the middle row string and, when
the line carries the trailing marker, the recorded insertion point computed
from the cursor position queried at render time (passed here as pos). -/
def mid (text : String) (b : Border) (len : Nat) (pos : Nat × Nat) : String × Option (Nat × Nat) :=
  match stripMarker text with
  | some question =>
    let qlen := byteLen question % 65536
    (String.mk (b.c3 :: question.data ++ List.replicate (fillCount len qlen) ' ' ++ [b.c3]),
      some ((pos.1 + 1 + qlen) % 65536, pos.2))
  | none =>
    (String.mk (b.c3 :: text.data ++ List.replicate (fillCount len (byteLen text % 65536)) ' ' ++ [b.c3]),
      none)

/-- Model of bot (main.rs lines 240-249): the bottom row string. -/
def bot (b : Border) (len : Nat) : String :=
  String.mk (b.c4 :: b.c1 :: List.replicate len b.c1 ++ [b.c5])

/-- Key codes distinguished by the capture loop: Enter, printable characters,
and every other key code (main.rs lines 180-187). -/
inductive KCode where
  | enter : KCode
  | ch : Char → KCode
  | other : KCode
deriving DecidableEq, Repr

/-- Terminal events delivered by read(): key events and non-key events
(resize, mouse, focus, paste), which the source matches with a wildcard. -/
inductive TEvent where
  | key : KCode → TEvent
  | nonKey : TEvent
deriving DecidableEq, Repr

/-- Observable side effects of the program: buffered cursor moves on the
diagnostic stream (cursor, main.rs 251-255), immediate flushed cursor moves
(force_cursor, main.rs 257-261), a newline-terminated row written to the
diagnostic stream (eprintln), and a write to standard output (print). -/
inductive Effect where
  | qMove : Nat → Nat → Effect
  | fMove : Nat → Nat → Effect
  | errLine : String → Effect
  | outWrite : String → Effect
deriving DecidableEq, Repr

/-- Whether an effect is a write to standard output. -/
def isOut : Effect → Bool
  | .outWrite _ => true
  | _ => false

/-- The inner capture loop for one field (main.rs lines 177-190): each
iteration forces the cursor to the fixed insertion point, then reads one
event; Enter and non-key events end the field, a printable char is appended
to the accumulator, any other key event is ignored.  Events are modelled as
a finite list; none means the list was exhausted with the loop still
blocked on read, i.e. the field never ended. -/
def captureField (x y : Nat) (acc : String) : List TEvent → Option (String × List TEvent × List Effect)
  | [] => none
  | e :: rest =>
    match e with
    | .key .enter => some (acc, rest, [.fMove x y])
    | .key (.ch c) =>
      match captureField x y (acc.push c) rest with
      | none => none
      | some (a, r, effs) => some (a, r, .fMove x y :: effs)
    | .key .other =>
      match captureField x y acc rest with
      | none => none
      | some (a, r, effs) => some (a, r, .fMove x y :: effs)
    | .nonKey => some (acc, rest, [.fMove x y])

/-- The outer capture loop (main.rs lines 174-194): for each recorded field
position, query the cursor position (oracle posq at index k), run the inner
loop, then queue a move back to the saved position and append a newline to
the accumulated input. -/
def capturePass : List (Nat × Nat) → (Nat → Nat × Nat) → Nat → String → List TEvent → Option (String × List Effect)
  | [], _, _, acc, _ => some (acc, [])
  | (x, y) :: ps, posq, k, acc, evs =>
    match captureField x y acc evs with
    | none => none
    | some (acc2, evs2, effs) =>
      match capturePass ps posq (k + 1) (acc2.push '\n') evs2 with
      | none => none
      | some (accF, effs2) =>
        some (accF, effs ++ [.qMove (posq k).1 (posq k).2] ++ effs2)

/-- The text captured for each field in order, each field starting from the
empty accumulator: the per-field decomposition of the single input string
the source accumulates across fields. -/
def fieldTexts : List (Nat × Nat) → List TEvent → Option (List String)
  | [], _ => some []
  | (x, y) :: ps, evs =>
    match captureField x y ("") evs with
    | none => none
    | some (s, rest, _) =>
      match fieldTexts ps rest with
      | none => none
      | some ts => some (s :: ts)

/-- Newline-joined texts, one trailing newline per text, matching the final
accumulated input of the source. -/
def joinNl : List String → String
  | [] => ""
  | t :: ts => t ++ "\n" ++ joinNl ts

/-- The configuration structure of the source. -/
structure Config where
  border : List Char
  center : Bool
  position : Nat × Nat
  query : List String
  length : Nat
deriving Repr

/-- The box origin (main.rs lines 146-152): centered placement computed from
the terminal size in wrapping u16 arithmetic, or the configured position. -/
def originOf (cfg : Config) (tsize : Nat × Nat) (len : Nat) : Nat × Nat :=
  if cfg.center then
    (wsub (wsub (tsize.1 / 2) (len / 2)) 2,
     wsub (wsub (tsize.2 / 2) ((cfg.query.length % 65536) / 2)) 2)
  else cfg.position

/-- The middle-row pass (main.rs lines 159-169): for each query line after
the first, queue a cursor move to the row start, render the row via mid
(consuming one cursor-position oracle query when the line is a field) and
record the insertion point; returns the effects, the recorded positions,
the next oracle index and the final row coordinate. -/
def midsPass : List String → Border → Nat → Nat → Nat → (Nat → Nat × Nat) → Nat → List Effect × List (Nat × Nat) × Nat × Nat
  | [], _, _, _, sy, _, k => ([], [], k, sy)
  | q :: qs, b, len, sx, sy, posq, k =>
    let r := mid q b len (posq k)
    let k1 := if r.2.isSome then k + 1 else k
    let rest := midsPass qs b len sx (wadd sy 1) posq k1
    (.qMove sx sy :: .errLine r.1 :: rest.1, r.2.toList ++ rest.2.1, rest.2.2)

/-- The effect trace of main after configuration (main.rs lines 132-197):
render the top row at the origin, the middle rows, the bottom row, then run
the capture loop and write the accumulated input to standard output.  posq
is the oracle of cursor-position query results, evs the event stream; none
models a run that blocks forever in capture (or the unreachable cases of an
empty query or a border vector whose length is not 6). -/
def mainTrace (cfg : Config) (tsize : Nat × Nat) (posq : Nat → Nat × Nat) (evs : List TEvent) : Option (List Effect) :=
  match border6 cfg.border, interiorWidth cfg.query cfg.length with
  | some b, some len =>
    let o := originOf cfg tsize len
    let r := midsPass (cfg.query.drop 1) b len o.1 (wadd o.2 1) posq 0
    match capturePass r.2.1 posq r.2.2.1 ("") evs with
    | none => none
    | some (input, capEffs) =>
      some (.qMove o.1 o.2 :: .errLine (top cfg.query.head? b len) :: r.1
        ++ (.qMove o.1 r.2.2.2 :: .errLine (bot b len) :: capEffs)
        ++ [.outWrite input])
  | _, _ => none

/-- The interactive-field insertion points recorded by main, in order. -/
def mainFields (cfg : Config) (tsize : Nat × Nat) (posq : Nat → Nat × Nat) : List (Nat × Nat) :=
  match border6 cfg.border, interiorWidth cfg.query cfg.length with
  | some b, some len =>
    let o := originOf cfg tsize len
    (midsPass (cfg.query.drop 1) b len o.1 (wadd o.2 1) posq 0).2.1
  | _, _ => []

/-- Error kinds of the configuration phase: each models a diagnostic message
followed by process exit with code 1 (error at main.rs 102-106, and the
invalid-argument branch at main.rs 74-77). -/
inductive CErr where
  | invalidBorderLen : Nat → CErr
  | invalidPosition : CErr
  | invalidArgument : String → CErr
  | noQuery : CErr
deriving DecidableEq, Repr

/-- Model of str::parse::<u16> on the chars of the argument value: an
optional leading plus sign, then one or more ASCII digits, value below
65536; none models a parse error. -/
def parseU16 (s : List Char) : Option Nat :=
  let t := match s with
    | '+' :: rest => rest
    | l => l
  if t.isEmpty then none
  else if t.all Char.isDigit then
    let v := t.foldl (fun a c => a * 10 + (c.toNat - 48)) 0
    if v < 65536 then some v else none
  else none

/-- Model of str::split_once at the first comma: the chars before the first
comma and the chars after it; none when there is no comma. -/
def splitComma : List Char → List Char → Option (List Char × List Char)
  | _, [] => none
  | acc, ',' :: r => some (acc.reverse, r)
  | acc, c :: r => splitComma (c :: acc) r

/-- The position-argument parser of Config::new (main.rs lines 53-62):
split at the first comma and parse both halves as u16. -/
def parsePos (s : List Char) : Option (Nat × Nat) :=
  match splitComma [] s with
  | none => none
  | some (xs, ys) =>
    match parseU16 xs, parseU16 ys with
    | some x, some y => some (x, y)
    | _, _ => none

/-- Model of str::trim_start_matches of a dash: drop every leading dash. -/
def trimDashes : List Char → List Char
  | '-' :: rest => trimDashes rest
  | l => l

/-- Whether the argument starts with a dash. -/
def startsDash (s : String) : Bool :=
  match s.data with
  | '-' :: _ => true
  | _ => false

/-- Model of stripping a leading one-letter key followed by an equals sign
from the argument: the remainder when the first two chars are that key and
an equals. -/
def stripKey (k : Char) : List Char → Option (List Char)
  | c :: '=' :: rest => if c = k then some rest else none
  | _ => none

/-- The mutable state of the argument loop of Config::new. -/
structure PSt where
  border : List Char
  center : Bool
  position : Nat × Nat
  query : List String
  length : Nat
  finished : Bool
deriving Repr

/-- One iteration of the argument loop of Config::new (main.rs lines 29-86).
Note that the double-dash separator and the first plain argument set the
finished flag and fall through to the query push, and that a dashed argument
containing an equals sign but matching none of the three key forms also
falls through to the query push. -/
def stepArg (st : PSt) (arg : String) : Except CErr PSt :=
  if st.finished then .ok { st with query := st.query ++ [arg] }
  else if arg.data = ['-', '-'] then
    .ok { st with finished := true, query := st.query ++ [arg] }
  else if startsDash arg then
    let trimmed := trimDashes arg.data
    if trimmed.contains '=' then
      match stripKey 'b' trimmed with
      | some r =>
        if r = ['s', 'i', 'n', 'g', 'l', 'e'] then .ok st
        else if r = ['d', 'o', 'u', 'b', 'l', 'e'] then
          .ok { st with border := ['╔', '═', '╗', '║', '╚', '╝'] }
        else if r = ['t', 'h', 'i', 'c', 'k'] then
          .ok { st with border := ['┏', '━', '┓', '┃', '┗', '┛'] }
        else if r = ['c', 'u', 'r', 'v', 'e', 'd'] then
          .ok { st with border := ['╭', '─', '╮', '│', '╰', '╯'] }
        else if r.length = 6 then .ok { st with border := r }
        else .error (.invalidBorderLen r.length)
      | none =>
        match stripKey 'l' trimmed with
        | some r => .ok { st with length := (parseU16 r).getD 8 }
        | none =>
          match stripKey 'p' trimmed with
          | some r =>
            match parsePos r with
            | some pr => .ok { st with position := pr }
            | none => .error .invalidPosition
          | none => .ok { st with query := st.query ++ [arg] }
    else
      if trimmed = ['c'] then .ok { st with center := true }
      else if trimmed = ['h'] then .ok st
      else .error (.invalidArgument arg)
  else .ok { st with finished := true, query := st.query ++ [arg] }

/-- The argument loop of Config::new, folded over the argument list. -/
def parseArgsGo : PSt → List String → Except CErr PSt
  | st, [] => .ok st
  | st, a :: rest =>
    match stepArg st a with
    | .error e => .error e
    | .ok st2 => parseArgsGo st2 rest

/-- Model of Config::new (main.rs lines 21-99): fold the argument loop over
the arguments after the program name, starting from the defaults (the
initial position is the cursor position queried at startup, passed here as
initPos), and reject an empty query. -/
def parseArgs (argv : List String) (initPos : Nat × Nat) : Except CErr Config :=
  let st0 : PSt := ⟨defaultBorder, false, initPos, [], 8, false⟩
  match parseArgsGo st0 (argv.drop 1) with
  | .error e => .error e
  | .ok st =>
    if st.query.isEmpty then .error .noQuery
    else .ok ⟨st.border, st.center, st.position, st.query, st.length⟩

/-- The whole program: configuration parsing followed by the main trace; a
configuration error is a diagnostic message and process exit with a
non-zero code before any box row is rendered. -/
def program (argv : List String) (initPos tsize : Nat × Nat) (posq : Nat → Nat × Nat) (evs : List TEvent) : Except CErr (Option (List Effect)) :=
  match parseArgs argv initPos with
  | .error e => .error e
  | .ok cfg => .ok (mainTrace cfg tsize posq evs)

theorem sdata_app (a b : String) : (a ++ b).data = a.data ++ b.data := by
  cases a
  cases b
  rfl

theorem spush_eq (s : String) (c : Char) : s.push c = s ++ String.mk [c] := by
  cases s
  rfl

theorem sapp_assoc (a b c : String) : (a ++ b) ++ c = a ++ (b ++ c) := by
  cases a
  cases b
  cases c
  exact congrArg String.mk (List.append_assoc _ _ _)

theorem sapp_empty (a : String) : a ++ ("") = a := by
  cases a
  exact congrArg String.mk (List.append_nil _)

theorem sempty_app (a : String) : ("") ++ a = a := by
  cases a
  rfl

theorem spush_app (a b : String) (c : Char) : (a ++ b).push c = a ++ b.push c := by
  rw [spush_eq, spush_eq, sapp_assoc]

theorem byteLen_marker {q r : String} (h : stripMarker q = some r) : byteLen q = byteLen r + 2 := by
  unfold stripMarker at h
  split at h
  case _ rest heq =>
    injection h with h
    subst h
    have hd : q.data = rest.reverse ++ ['?', '>'] := by
      have h2 := congrArg List.reverse heq
      simpa using h2
    simp [byteLen, hd]
    decide
  case _ => exact absurd h (by simp)

theorem displayText_of_some {q r : String} (h : stripMarker q = some r) : displayText q = r := by
  unfold displayText
  rw [h]

theorem displayText_of_none {q : String} (h : stripMarker q = none) : displayText q = q := by
  unfold displayText
  rw [h]

theorem displayLen_le (q : String) : displayLen q ≤ byteLen q := by
  unfold displayLen
  cases h : stripMarker q with
  | none => rw [displayText_of_none h]
  | some r =>
    rw [displayText_of_some h]
    have := byteLen_marker h
    omega

theorem lineW16_eq_displayLen {q : String} (h : byteLen q < 65536) : lineW16 q = displayLen q := by
  unfold lineW16 displayLen
  cases hm : stripMarker q with
  | none =>
    rw [displayText_of_none hm]
    simp only [Option.isSome_none, Bool.false_eq_true, if_false, wsub]
    omega
  | some r =>
    have h2 := byteLen_marker hm
    rw [displayText_of_some hm]
    simp only [Option.isSome_some, if_true, wsub]
    omega

theorem foldl_max_eq (ws : List Nat) : ∀ w : Nat, ws.foldl Nat.max w = Nat.max w (ws.foldr Nat.max 0) := by
  induction ws with
  | nil => intro w; simp
  | cons a t ih =>
    intro w
    simp only [List.foldl_cons, List.foldr_cons, ih (Nat.max w a), Nat.max_assoc]

theorem foldr_max_lt {p : Nat} (hp : p < 65536) :
    ∀ l : List Nat, (∀ x ∈ l, x + p < 65536) → l.foldr Nat.max 0 + p < 65536 := by
  intro l
  induction l with
  | nil => intro _; simpa using hp
  | cons a t ih =>
    intro h
    have ha := h a (List.mem_cons_self a t)
    have ht := ih fun x hx => h x (List.mem_cons_of_mem a hx)
    simp only [List.foldr_cons]
    have hm : Nat.max a (t.foldr Nat.max 0) = a ∨ Nat.max a (t.foldr Nat.max 0) = t.foldr Nat.max 0 :=
      max_choice _ _
    rcases hm with h1 | h1 <;> rw [h1] <;> omega

/-- C1: for every non-empty query and padding (u16 values small enough that no
u16 wrap occurs), the computed interior width equals the maximum byte length
of the display texts of the lines (marker stripped) plus the padding. -/
theorem c1_interior_width (query : List String) (padding : Nat)
    (hne : query ≠ []) (hpad : padding < 65536)
    (hlen : ∀ q ∈ query, byteLen q + padding < 65536) :
    interiorWidth query padding = some ((query.map displayLen).foldr Nat.max 0 + padding) := by
  cases query with
  | nil => exact absurd rfl hne
  | cons q qs =>
    have hmap : (q :: qs).map lineW16 = (q :: qs).map displayLen :=
      List.map_congr_left fun a ha => lineW16_eq_displayLen (by have := hlen a ha; omega)
    have hb : ((q :: qs).map displayLen).foldr Nat.max 0 + padding < 65536 := by
      refine foldr_max_lt hpad _ ?_
      intro x hx
      rw [List.mem_map] at hx
      obtain ⟨a, ha, hax⟩ := hx
      have h1 := displayLen_le a
      have h2 := hlen a ha
      omega
    unfold interiorWidth
    rw [hmap]
    simp only [List.map_cons]
    rw [foldl_max_eq]
    simp only [List.map_cons, List.foldr_cons] at hb
    rw [Nat.mod_eq_of_lt hb]
    simp only [List.foldr_cons]

/-- Witness for C1 at a concrete query. -/
theorem c1_interior_width_w :
    interiorWidth [String.mk ['a', 'b', 'c', '?', '>'], String.mk ['h', 'e', 'l', 'l', 'o']] 8 = some 13 := by
  have h := c1_interior_width [String.mk ['a', 'b', 'c', '?', '>'], String.mk ['h', 'e', 'l', 'l', 'o']] 8
    (by decide) (by decide) (by decide)
  rw [h]
  decide

/-- C5: for every field line (a line carrying the trailing marker), assuming
no u16 wrap, the recorded insertion point is the cursor column queried at
render time plus one plus the byte length of the display text, at the
queried cursor row. -/
theorem c5_insertion_point (text : String) (b : Border) (len : Nat) (pos : Nat × Nat) (question : String)
    (hm : stripMarker text = some question) (hb : pos.1 + 1 + byteLen question < 65536) :
    (mid text b len pos).2 = some (pos.1 + 1 + byteLen question, pos.2) := by
  simp only [mid, hm]
  have h2 : (pos.1 + 1 + byteLen question % 65536) % 65536 = pos.1 + 1 + byteLen question := by
    omega
  rw [h2]

/-- Witness for C5 at a concrete field line. -/
theorem c5_insertion_point_w :
    (mid (String.mk ['a', '?', '>']) ⟨'┌', '─', '┐', '│', '└', '┘'⟩ 9 (4, 2)).2 = some (6, 2) := by
  have h := c5_insertion_point (String.mk ['a', '?', '>']) ⟨'┌', '─', '┐', '│', '└', '┘'⟩ 9 (4, 2)
    (String.mk ['a']) (by decide) (by decide)
  rw [h]
  decide

theorem fillCount_self {len : Nat} (_hl : len < 65536) : fillCount len (len % 65536) = 1 := by
  unfold fillCount wadd wsub
  omega

/-- C7 counterexample: a static line of exactly interior width 2 renders with
ONE fill character before the closing border, not zero. -/
theorem c7_counterexample :
    displayLen (String.mk ['a', 'b']) = 2 ∧
    (mid (String.mk ['a', 'b']) ⟨'┌', '─', '┐', '│', '└', '┘'⟩ 2 (0, 0)).1 ≠ String.mk ['│', 'a', 'b', '│'] ∧
    (mid (String.mk ['a', 'b']) ⟨'┌', '─', '┐', '│', '└', '┘'⟩ 2 (0, 0)).1 = String.mk ['│', 'a', 'b', ' ', '│'] := by
  decide

/-- C7 amended: a content line whose display text is exactly interior_width
bytes long renders with exactly one fill character (the constant extra
padding column of mid) between the display text and the closing border. -/
theorem c7_one_fill (text : String) (b : Border) (len : Nat) (pos : Nat × Nat)
    (hd : displayLen text = len) (hl : len < 65536) :
    (mid text b len pos).1 = String.mk (b.c3 :: (displayText text).data ++ [' ', b.c3]) := by
  cases hm : stripMarker text with
  | some q =>
    have hq : displayText text = q := displayText_of_some hm
    have hlen2 : byteLen q = len := by
      unfold displayLen at hd
      rw [hq] at hd
      exact hd
    simp only [mid, hm, hq, hlen2, fillCount_self hl, List.replicate_one]
    simp
  | none =>
    have hq : displayText text = text := displayText_of_none hm
    have hlen2 : byteLen text = len := by
      unfold displayLen at hd
      rw [hq] at hd
      exact hd
    simp only [mid, hm, hq, hlen2, fillCount_self hl, List.replicate_one]
    simp

/-- Witness for C7 amended at a concrete line. -/
theorem c7_one_fill_w :
    (mid (String.mk ['h', 'i', '?', '>']) ⟨'┌', '─', '┐', '│', '└', '┘'⟩ 2 (0, 0)).1
      = String.mk ['│', 'h', 'i', ' ', '│'] := by
  have h := c7_one_fill (String.mk ['h', 'i', '?', '>']) ⟨'┌', '─', '┐', '│', '└', '┘'⟩ 2 (0, 0)
    (by decide) (by decide)
  rw [h]
  decide

theorem captureField_effects {x y : Nat} :
    ∀ (evs : List TEvent) (acc a : String) (r : List TEvent) (effs : List Effect),
      captureField x y acc evs = some (a, r, effs) → ∀ e ∈ effs, e = Effect.fMove x y := by
  intro evs
  induction evs with
  | nil => intro acc a r effs h; exact absurd h (by simp [captureField])
  | cons ev rest ih =>
    intro acc a r effs h
    match ev with
    | .key .enter =>
      simp only [captureField, Option.some.injEq, Prod.mk.injEq] at h
      obtain ⟨-, -, h3⟩ := h
      subst h3
      simp
    | .nonKey =>
      simp only [captureField, Option.some.injEq, Prod.mk.injEq] at h
      obtain ⟨-, -, h3⟩ := h
      subst h3
      simp
    | .key (.ch c) =>
      simp only [captureField] at h
      cases h0 : captureField x y (acc.push c) rest with
      | none => rw [h0] at h; exact absurd h (by simp)
      | some t =>
        rw [h0] at h
        obtain ⟨a0, r0, e0⟩ := t
        simp only [Option.some.injEq, Prod.mk.injEq] at h
        obtain ⟨-, -, h3⟩ := h
        subst h3
        intro e he
        rcases List.mem_cons.mp he with h4 | h4
        · exact h4
        · exact ih _ _ _ _ h0 e h4
    | .key .other =>
      simp only [captureField] at h
      cases h0 : captureField x y acc rest with
      | none => rw [h0] at h; exact absurd h (by simp)
      | some t =>
        rw [h0] at h
        obtain ⟨a0, r0, e0⟩ := t
        simp only [Option.some.injEq, Prod.mk.injEq] at h
        obtain ⟨-, -, h3⟩ := h
        subst h3
        intro e he
        rcases List.mem_cons.mp he with h4 | h4
        · exact h4
        · exact ih _ _ _ _ h0 e h4

theorem captureField_shift (x y : Nat) :
    ∀ (evs : List TEvent) (a1 a2 : String),
      captureField x y (a1 ++ a2) evs
        = (captureField x y a2 evs).map (fun t => (a1 ++ t.1, t.2.1, t.2.2)) := by
  intro evs
  induction evs with
  | nil => intro a1 a2; rfl
  | cons ev rest ih =>
    intro a1 a2
    match ev with
    | .key .enter => rfl
    | .nonKey => rfl
    | .key (.ch c) =>
      simp only [captureField, spush_app a1 a2 c, ih a1 (a2.push c)]
      cases captureField x y (a2.push c) rest with
      | none => rfl
      | some t => rfl
    | .key .other =>
      simp only [captureField, ih a1 a2]
      cases captureField x y a2 rest with
      | none => rfl
      | some t => rfl

theorem captureField_acc (x y : Nat) (acc : String) (evs : List TEvent) :
    captureField x y acc evs
      = (captureField x y ("") evs).map (fun t => (acc ++ t.1, t.2.1, t.2.2)) := by
  have h := captureField_shift x y evs acc ("")
  rwa [sapp_empty] at h

theorem captureField_terminator (x y : Nat) :
    ∀ (evs : List TEvent) (acc : String),
      (captureField x y acc evs).isSome = true
        ↔ ∃ e ∈ evs, e = TEvent.key KCode.enter ∨ e = TEvent.nonKey := by
  intro evs
  induction evs with
  | nil => intro acc; simp [captureField]
  | cons ev rest ih =>
    intro acc
    match ev with
    | .key .enter => simp [captureField]
    | .nonKey => simp [captureField]
    | .key (.ch c) =>
      simp only [captureField]
      rw [List.exists_mem_cons_iff]
      constructor
      · intro h
        cases h0 : captureField x y (acc.push c) rest with
        | none => rw [h0] at h; exact absurd h (by simp)
        | some t =>
          right
          exact (ih (acc.push c)).mp (by rw [h0]; rfl)
      · intro h
        rcases h with h | h
        · rcases h with h | h <;> exact absurd h (by simp)
        · have h2 := (ih (acc.push c)).mpr h
          cases h0 : captureField x y (acc.push c) rest with
          | none => rw [h0] at h2; exact absurd h2 (by simp)
          | some t => obtain ⟨a0, r0, e0⟩ := t; rfl
    | .key .other =>
      simp only [captureField]
      rw [List.exists_mem_cons_iff]
      constructor
      · intro h
        cases h0 : captureField x y acc rest with
        | none => rw [h0] at h; exact absurd h (by simp)
        | some t =>
          right
          exact (ih acc).mp (by rw [h0]; rfl)
      · intro h
        rcases h with h | h
        · rcases h with h | h <;> exact absurd h (by simp)
        · have h2 := (ih acc).mpr h
          cases h0 : captureField x y acc rest with
          | none => rw [h0] at h2; exact absurd h2 (by simp)
          | some t => obtain ⟨a0, r0, e0⟩ := t; rfl

/-- C3 counterexample: while capturing at insertion point (5, 3), after the
printable character event the next cursor command issued by the loop is an
immediate move back to column 5 (the fixed insertion point), not a move
forward to column 6; the full trace of the run contains only moves to
(5, 3). -/
theorem c3_counterexample :
    captureField 5 3 ("") [TEvent.key (KCode.ch 'a'), TEvent.key KCode.enter]
      = some (String.mk ['a'], [], [Effect.fMove 5 3, Effect.fMove 5 3]) ∧
    [Effect.fMove 5 3, Effect.fMove 5 3].get? 1 ≠ some (Effect.fMove (5 + 1) 3) := by
  decide

/-- C3 amended: on a printable character key event the character is appended
to the captured text and the loop remains in the capturing state, but the
cursor is not advanced: the loop issues an immediate move back to the fixed
insertion point (x, y) before the next read, and every cursor command it
ever issues targets exactly (x, y). -/
theorem c3_char_event (x y : Nat) (acc : String) (c : Char) (rest : List TEvent)
    (a : String) (r : List TEvent) (effs : List Effect)
    (h : captureField x y acc (TEvent.key (KCode.ch c) :: rest) = some (a, r, effs)) :
    (∃ effs2, captureField x y (acc.push c) rest = some (a, r, effs2)
      ∧ effs = Effect.fMove x y :: effs2) ∧
    ∀ e ∈ effs, e = Effect.fMove x y := by
  refine ⟨?_, captureField_effects _ _ _ _ _ h⟩
  simp only [captureField] at h
  cases h0 : captureField x y (acc.push c) rest with
  | none => rw [h0] at h; exact absurd h (by simp)
  | some t =>
    rw [h0] at h
    obtain ⟨a0, r0, e0⟩ := t
    simp only [Option.some.injEq, Prod.mk.injEq] at h
    obtain ⟨h1, h2, h3⟩ := h
    subst h1
    subst h2
    subst h3
    exact ⟨e0, rfl, rfl⟩

/-- Witness for C3 amended at a concrete run. -/
theorem c3_char_event_w :
    (∃ effs2, captureField 5 3 (String.mk ['a']) [TEvent.key KCode.enter]
        = some (String.mk ['a'], [], effs2)
      ∧ [Effect.fMove 5 3, Effect.fMove 5 3] = Effect.fMove 5 3 :: effs2) ∧
    ∀ e ∈ [Effect.fMove 5 3, Effect.fMove 5 3], e = Effect.fMove 5 3 := by
  have h := c3_char_event 5 3 ("") 'a' [TEvent.key KCode.enter]
    (String.mk ['a']) [] [Effect.fMove 5 3, Effect.fMove 5 3] (by decide)
  exact h

/-- C4 counterexample: a lone unrecognized key event does NOT end the field
(the loop keeps waiting for input), and with a following Enter event the
captured run shows both events were consumed, so the unrecognized key was
ignored rather than committing the field. -/
theorem c4_counterexample :
    captureField 0 0 ("") [TEvent.key KCode.other] = none ∧
    captureField 0 0 ("") [TEvent.key KCode.other, TEvent.key KCode.enter]
      = some (("", [], [Effect.fMove 0 0, Effect.fMove 0 0]) : String × List TEvent × List Effect) := by
  decide

/-- C4 amended: the field ends exactly when an Enter key event or a non-key
event arrives; unrecognized key events are ignored and the loop keeps
capturing, so a stream with neither terminator leaves the field open. -/
theorem c4_field_ends_iff (x y : Nat) (acc : String) (evs : List TEvent) :
    (captureField x y acc evs).isSome = true
      ↔ ∃ e ∈ evs, e = TEvent.key KCode.enter ∨ e = TEvent.nonKey := by
  exact captureField_terminator x y evs acc

/-- Witness for C4 amended at a concrete run. -/
theorem c4_field_ends_iff_w :
    (captureField 0 0 ("") [TEvent.key KCode.other, TEvent.nonKey]).isSome = true := by
  exact (c4_field_ends_iff 0 0 ("") [TEvent.key KCode.other, TEvent.nonKey]).mpr
    ⟨TEvent.nonKey, by simp, Or.inr rfl⟩

theorem mid_snd_isSome (q : String) (b : Border) (len : Nat) (pos : Nat × Nat) :
    (mid q b len pos).2.isSome = (stripMarker q).isSome := by
  cases h : stripMarker q with
  | none => simp [mid, h]
  | some r => simp [mid, h]

theorem midsPass_fields_len :
    ∀ (qs : List String) (b : Border) (len sx sy : Nat) (posq : Nat → Nat × Nat) (k : Nat),
      (midsPass qs b len sx sy posq k).2.1.length
        = (qs.filter (fun q => (stripMarker q).isSome)).length := by
  intro qs
  induction qs with
  | nil => intro b len sx sy posq k; rfl
  | cons q t ih =>
    intro b len sx sy posq k
    simp only [midsPass, List.length_append]
    rw [List.filter_cons]
    cases h : stripMarker q with
    | none =>
      have h2 : (mid q b len (posq k)).2 = none := by simp [mid, h]
      simp only [h2, Option.toList_none, List.length_nil, Option.isSome_none, h]
      simp only [Bool.false_eq_true, if_false]
      rw [ih]
      omega
    | some r =>
      have h2 : (mid q b len (posq k)).2.isSome = true := by rw [mid_snd_isSome, h]; rfl
      cases h3 : (mid q b len (posq k)).2 with
      | none => rw [h3] at h2; exact absurd h2 (by simp)
      | some p =>
        simp only [h3, Option.toList_some, List.length_cons, List.length_nil, h]
        simp only [Option.isSome_some, if_true]
        rw [ih]
        simp
        omega

/-- C2 counterexample: in a two-line query whose FIRST line ends with the
marker, the program records no interactive field at all: the first line is
rendered by top as the title and is never inspected for the marker. -/
theorem c2_counterexample :
    (stripMarker (String.mk ['T', '?', '>'])).isSome = true ∧
    mainFields ⟨defaultBorder, false, (0, 0), [String.mk ['T', '?', '>'], String.mk ['x']], 8⟩
      (80, 24) (fun _ => (0, 0)) = [] := by
  decide

/-- C2 amended: a line becomes an interactive field if and only if it ends
with the marker AND is not the first line: the fields recorded by main are
exactly the marker-carrying lines after the first, the first line always
being rendered as static title text. -/
theorem c2_fields_after_first (cfg : Config) (tsize : Nat × Nat) (posq : Nat → Nat × Nat)
    (b : Border) (q0 : String) (rest : List String)
    (hq : cfg.query = q0 :: rest) (hb : border6 cfg.border = some b) :
    (mainFields cfg tsize posq).length
      = (rest.filter (fun q => (stripMarker q).isSome)).length := by
  unfold mainFields
  rw [hb, hq]
  simp only [interiorWidth, List.map_cons]
  rw [midsPass_fields_len]
  rfl

/-- Witness for C2 amended at a concrete configuration. -/
theorem c2_fields_after_first_w :
    (mainFields ⟨defaultBorder, false, (0, 0), [String.mk ['T'], String.mk ['a', '?', '>'], String.mk ['x']], 8⟩
      (80, 24) (fun _ => (0, 0))).length = 1 := by
  have h := c2_fields_after_first
    ⟨defaultBorder, false, (0, 0), [String.mk ['T'], String.mk ['a', '?', '>'], String.mk ['x']], 8⟩
    (80, 24) (fun _ => (0, 0)) ⟨'┌', '─', '┐', '│', '└', '┘'⟩
    (String.mk ['T']) [String.mk ['a', '?', '>'], String.mk ['x']] rfl (by decide)
  rw [h]
  decide

/-- C9: for a query of exactly one line, no middle rows are rendered, no
interactive field is recorded (even when the line carries the marker), no
event is consumed, and the single write to standard output is the empty
string: the trace is exactly the top-row move and row, the bottom-row move
and row, and the empty stdout write, independent of the event stream. -/
theorem c9_single_line (cfg : Config) (tsize : Nat × Nat) (posq : Nat → Nat × Nat) (evs : List TEvent)
    (q : String) (b : Border) (len : Nat)
    (hq : cfg.query = [q]) (hb : border6 cfg.border = some b)
    (hl : interiorWidth cfg.query cfg.length = some len) :
    mainFields cfg tsize posq = [] ∧
    mainTrace cfg tsize posq evs = some
      [Effect.qMove (originOf cfg tsize len).1 (originOf cfg tsize len).2,
       Effect.errLine (top (some q) b len),
       Effect.qMove (originOf cfg tsize len).1 (wadd (originOf cfg tsize len).2 1),
       Effect.errLine (bot b len),
       Effect.outWrite ("")] := by
  constructor
  · unfold mainFields
    rw [hb, hl, hq]
    rfl
  · unfold mainTrace
    rw [hb, hl, hq]
    rfl

/-- Witness for C9 at a concrete one-line query carrying the marker. -/
theorem c9_single_line_w :
    mainFields ⟨defaultBorder, false, (2, 3), [String.mk ['h', 'i', '?', '>']], 8⟩ (80, 24) (fun _ => (0, 0)) = [] ∧
    mainTrace ⟨defaultBorder, false, (2, 3), [String.mk ['h', 'i', '?', '>']], 8⟩ (80, 24) (fun _ => (0, 0))
      [TEvent.key (KCode.ch 'z')] = some
      [Effect.qMove (originOf ⟨defaultBorder, false, (2, 3), [String.mk ['h', 'i', '?', '>']], 8⟩ (80, 24) 10).1
        (originOf ⟨defaultBorder, false, (2, 3), [String.mk ['h', 'i', '?', '>']], 8⟩ (80, 24) 10).2,
       Effect.errLine (top (some (String.mk ['h', 'i', '?', '>'])) ⟨'┌', '─', '┐', '│', '└', '┘'⟩ 10),
       Effect.qMove (originOf ⟨defaultBorder, false, (2, 3), [String.mk ['h', 'i', '?', '>']], 8⟩ (80, 24) 10).1
        (wadd (originOf ⟨defaultBorder, false, (2, 3), [String.mk ['h', 'i', '?', '>']], 8⟩ (80, 24) 10).2 1),
       Effect.errLine (bot ⟨'┌', '─', '┐', '│', '└', '┘'⟩ 10),
       Effect.outWrite ("")] := by
  exact c9_single_line _ (80, 24) (fun _ => (0, 0)) [TEvent.key (KCode.ch 'z')]
    (String.mk ['h', 'i', '?', '>']) ⟨'┌', '─', '┐', '│', '└', '┘'⟩ 10 rfl (by decide) (by decide)

theorem midsPass_noOut :
    ∀ (qs : List String) (b : Border) (len sx sy : Nat) (posq : Nat → Nat × Nat) (k : Nat),
      ∀ e ∈ (midsPass qs b len sx sy posq k).1, isOut e = false := by
  intro qs
  induction qs with
  | nil => intro b len sx sy posq k e he; exact absurd he (by simp [midsPass])
  | cons q t ih =>
    intro b len sx sy posq k e he
    simp only [midsPass, List.mem_cons] at he
    rcases he with h | h | h
    · subst h; rfl
    · subst h; rfl
    · exact ih b len sx (wadd sy 1) posq _ e h

theorem capturePass_join :
    ∀ (ps : List (Nat × Nat)) (posq : Nat → Nat × Nat) (k : Nat) (acc : String) (evs : List TEvent)
      (F : String) (effs : List Effect),
      capturePass ps posq k acc evs = some (F, effs) →
      ∃ ts, fieldTexts ps evs = some ts ∧ F = acc ++ joinNl ts ∧ ∀ e ∈ effs, isOut e = false := by
  intro ps
  induction ps with
  | nil =>
    intro posq k acc evs F effs h
    simp only [capturePass, Option.some.injEq, Prod.mk.injEq] at h
    obtain ⟨h1, h2⟩ := h
    subst h1
    subst h2
    refine ⟨[], rfl, ?_, by simp⟩
    rw [joinNl, sapp_empty]
  | cons p ps ih =>
    obtain ⟨x, y⟩ := p
    intro posq k acc evs F effs h
    simp only [capturePass] at h
    split at h
    case _ => exact absurd h (by simp)
    case _ acc2 evs2 effs1 h0 =>
      split at h
      case _ => exact absurd h (by simp)
      case _ F0 effs0 h2 =>
        simp only [Option.some.injEq, Prod.mk.injEq] at h
        obtain ⟨hF, heffs⟩ := h
        have hshift := captureField_acc x y acc evs
        rw [h0] at hshift
        cases h00 : captureField x y ("") evs with
        | none => rw [h00] at hshift; exact absurd hshift (by simp)
        | some t0 =>
          rw [h00] at hshift
          obtain ⟨d, r0, e0⟩ := t0
          simp at hshift
          obtain ⟨ha, hr, he⟩ := hshift
          obtain ⟨ts', hts', hF0, hout0⟩ := ih posq (k + 1) (acc2.push '\n') evs2 F0 effs0 h2
          refine ⟨d :: ts', ?_, ?_, ?_⟩
          · simp only [fieldTexts, h00]
            rw [hr] at hts'
            rw [hts']
          · subst hF
            rw [hF0, ha, spush_app, joinNl]
            have hnl : String.mk ['\n'] = "\n" := rfl
            rw [spush_eq, hnl, sapp_assoc, sapp_assoc]
          · subst heffs
            intro e hmem
            simp only [List.mem_append, List.mem_singleton] at hmem
            rcases hmem with (hm | hm) | hm
            · have := captureField_effects evs acc acc2 evs2 effs1 h0 e hm
              subst this
              rfl
            · subst hm; rfl
            · exact hout0 e hm

/-- C6: in every completed run, the rendered box rows reach only the
diagnostic stream, and standard output receives exactly one write, the last
effect of the whole trace, whose content is the newline-joined captured
field texts (one trailing newline per field) and nothing else. -/
theorem c6_stdout (cfg : Config) (tsize : Nat × Nat) (posq : Nat → Nat × Nat)
    (evs : List TEvent) (tr : List Effect)
    (h : mainTrace cfg tsize posq evs = some tr) :
    ∃ ts, fieldTexts (mainFields cfg tsize posq) evs = some ts ∧
      tr.filter isOut = [Effect.outWrite (joinNl ts)] ∧
      tr.getLast? = some (Effect.outWrite (joinNl ts)) := by
  simp only [mainTrace] at h
  split at h
  case _ b len hb hl =>
    split at h
    case _ => exact absurd h (by simp)
    case _ input capEffs h2 =>
      simp only [Option.some.injEq] at h
      obtain ⟨ts, hts, hinput, hout⟩ := capturePass_join _ posq _ ("") evs input capEffs h2
      have hin2 : input = joinNl ts := by rw [hinput, sempty_app]
      have hf : mainFields cfg tsize posq
          = (midsPass (List.drop 1 cfg.query) b len (originOf cfg tsize len).1
              (wadd (originOf cfg tsize len).2 1) posq 0).2.1 := by
        unfold mainFields
        rw [hb, hl]
      have hm1 : List.filter isOut
          (midsPass (List.drop 1 cfg.query) b len (originOf cfg tsize len).1
            (wadd (originOf cfg tsize len).2 1) posq 0).1 = [] := by
        refine List.filter_eq_nil_iff.mpr ?_
        intro a ha
        rw [midsPass_noOut _ _ _ _ _ _ _ a ha]
        simp
      have hm2 : List.filter isOut capEffs = [] := by
        refine List.filter_eq_nil_iff.mpr ?_
        intro a ha
        rw [hout a ha]
        simp
      refine ⟨ts, by rw [hf]; exact hts, ?_, ?_⟩
      · subst h
        simp only [List.filter_cons, List.filter_append, hm1, hm2, isOut]
        simp [hin2]
      · subst h
        rw [hin2]
        have hshape :
            Effect.qMove (originOf cfg tsize len).1 (originOf cfg tsize len).2 ::
              Effect.errLine (top cfg.query.head? b len) ::
                (midsPass (List.drop 1 cfg.query) b len (originOf cfg tsize len).1
                    (wadd (originOf cfg tsize len).2 1) posq 0).1 ++
              Effect.qMove (originOf cfg tsize len).1
                  (midsPass (List.drop 1 cfg.query) b len (originOf cfg tsize len).1
                      (wadd (originOf cfg tsize len).2 1) posq 0).2.2.2 ::
                Effect.errLine (bot b len) :: capEffs ++
              [Effect.outWrite (joinNl ts)]
            = (Effect.qMove (originOf cfg tsize len).1 (originOf cfg tsize len).2 ::
                Effect.errLine (top cfg.query.head? b len) ::
                  (midsPass (List.drop 1 cfg.query) b len (originOf cfg tsize len).1
                      (wadd (originOf cfg tsize len).2 1) posq 0).1 ++
                Effect.qMove (originOf cfg tsize len).1
                    (midsPass (List.drop 1 cfg.query) b len (originOf cfg tsize len).1
                        (wadd (originOf cfg tsize len).2 1) posq 0).2.2.2 ::
                  Effect.errLine (bot b len) :: capEffs)
              ++ [Effect.outWrite (joinNl ts)] := by
          simp [List.append_assoc]
        rw [hshape, List.getLast?_concat]
  case _ => exact absurd h (by simp)

/-- Witness for C6 at a concrete two-line run with one field. -/
theorem c6_stdout_w :
    ∃ ts, fieldTexts
        (mainFields ⟨defaultBorder, false, (2, 3), [String.mk ['T'], String.mk ['a', '?', '>']], 8⟩
          (80, 24) (fun _ => (1, 1)))
        [TEvent.key (KCode.ch 'h'), TEvent.key KCode.enter] = some ts ∧
      List.filter isOut
        [Effect.qMove 2 3, Effect.errLine ("┌─T────────┐"), Effect.qMove 2 4,
         Effect.errLine ("│a         │"), Effect.qMove 2 5, Effect.errLine ("└──────────┘"),
         Effect.fMove 3 1, Effect.fMove 3 1, Effect.qMove 1 1, Effect.outWrite ("h\n")]
        = [Effect.outWrite (joinNl ts)] ∧
      List.getLast?
        [Effect.qMove 2 3, Effect.errLine ("┌─T────────┐"), Effect.qMove 2 4,
         Effect.errLine ("│a         │"), Effect.qMove 2 5, Effect.errLine ("└──────────┘"),
         Effect.fMove 3 1, Effect.fMove 3 1, Effect.qMove 1 1, Effect.outWrite ("h\n")]
        = some (Effect.outWrite (joinNl ts)) := by
  exact c6_stdout ⟨defaultBorder, false, (2, 3), [String.mk ['T'], String.mk ['a', '?', '>']], 8⟩
    (80, 24) (fun _ => (1, 1)) [TEvent.key (KCode.ch 'h'), TEvent.key KCode.enter]
    [Effect.qMove 2 3, Effect.errLine ("┌─T────────┐"), Effect.qMove 2 4,
     Effect.errLine ("│a         │"), Effect.qMove 2 5, Effect.errLine ("└──────────┘"),
     Effect.fMove 3 1, Effect.fMove 3 1, Effect.qMove 1 1, Effect.outWrite ("h\n")]
    (by decide)

theorem smk_data (l : List Char) : (String.mk l).data = l := rfl

/-- C8: for every custom border value (not one of the four preset names)
whose glyph sequence is not exactly 6 characters long, the program stops
with the invalid-border-length configuration error, exiting non-zero before
rendering anything: the result carries no effect trace at all. -/
theorem c8_border_length (s : String) (initPos tsize : Nat × Nat) (posq : Nat → Nat × Nat)
    (evs : List TEvent)
    (h1 : s.data ≠ ['s', 'i', 'n', 'g', 'l', 'e']) (h2 : s.data ≠ ['d', 'o', 'u', 'b', 'l', 'e'])
    (h3 : s.data ≠ ['t', 'h', 'i', 'c', 'k']) (h4 : s.data ≠ ['c', 'u', 'r', 'v', 'e', 'd'])
    (h6 : s.data.length ≠ 6) :
    program [String.mk ['i', 'b', 'o', 'x'], String.mk ('-' :: 'b' :: '=' :: s.data), String.mk ['q']]
        initPos tsize posq evs
      = .error (.invalidBorderLen s.data.length) := by
  obtain ⟨sd⟩ := s
  simp only [smk_data] at h1 h2 h3 h4 h6
  simp [program, parseArgs, parseArgsGo, stepArg, trimDashes, startsDash, stripKey, smk_data,
    h1, h2, h3, h4, h6]

/-- Witness for C8 at a concrete three-glyph border value. -/
theorem c8_border_length_w :
    program [String.mk ['i', 'b', 'o', 'x'], String.mk ('-' :: 'b' :: '=' :: ['a', 'b', 'c']), String.mk ['q']]
        (5, 7) (80, 24) (fun _ => (0, 0)) []
      = .error (.invalidBorderLen 3) := by
  have h := c8_border_length (String.mk ['a', 'b', 'c']) (5, 7) (80, 24) (fun _ => (0, 0)) []
    (by decide) (by decide) (by decide) (by decide) (by decide)
  exact h

/-- C10: a length argument whose value does not parse as u16 silently falls
back to the default padding 8 with no error reported (the parse succeeds and
the rest of the command line is processed normally), whereas a position
argument whose value is malformed is a fatal configuration error. -/
theorem c10_length_vs_position (s : String) (initPos : Nat × Nat) :
    (parseU16 s.data = none →
      parseArgs [String.mk ['i', 'b', 'o', 'x'], String.mk ('-' :: 'l' :: '=' :: s.data), String.mk ['q']] initPos
        = .ok ⟨defaultBorder, false, initPos, [String.mk ['q']], 8⟩)
    ∧ (parsePos s.data = none →
      parseArgs [String.mk ['i', 'b', 'o', 'x'], String.mk ('-' :: 'p' :: '=' :: s.data), String.mk ['q']] initPos
        = .error CErr.invalidPosition) := by
  obtain ⟨sd⟩ := s
  constructor
  · intro hp
    simp only [smk_data] at hp
    simp [parseArgs, parseArgsGo, stepArg, trimDashes, startsDash, stripKey, smk_data, hp]
  · intro hp
    simp only [smk_data] at hp
    simp [parseArgs, parseArgsGo, stepArg, trimDashes, startsDash, stripKey, smk_data, hp]

/-- Witness for C10 at concrete malformed values. -/
theorem c10_length_vs_position_w :
    parseArgs [String.mk ['i', 'b', 'o', 'x'], String.mk ('-' :: 'l' :: '=' :: ['a', 'b', 'c']), String.mk ['q']]
        (5, 7)
      = .ok ⟨defaultBorder, false, (5, 7), [String.mk ['q']], 8⟩
    ∧ parseArgs [String.mk ['i', 'b', 'o', 'x'], String.mk ('-' :: 'p' :: '=' :: ['x', 'y']), String.mk ['q']]
        (5, 7)
      = .error CErr.invalidPosition := by
  exact ⟨(c10_length_vs_position (String.mk ['a', 'b', 'c']) (5, 7)).1 (by decide),
    (c10_length_vs_position (String.mk ['x', 'y']) (5, 7)).2 (by decide)⟩
